import Mathlib

/-!
Shallow embedding of the transaction normalization-and-aggregation pipeline of
the PayPal dashboard (Dashboard component and MultiSelect component).

Modelling conventions:
  * Resolved dates (JavaScript `Date` values produced by `parseDate`, compared
    through `getTime()`) are modelled as `Int` millisecond timestamps.
  * Decimal amounts are modelled as exact rationals `ℚ`; the JavaScript `number`
    special values produced by `parseFloat` (`NaN`, `Infinity`) are modelled by
    a dedicated sum type `JsNumber` for the amount parser.
  * Strings are Lean `String`s; the JavaScript `String.includes` containment
    test is modelled by an executable substring search over character lists.
-/

namespace PaypalDash

/-- A transaction after the parse step, with the date already resolved by
`parseDate` to a timestamp.  Mirrors the `RawTransaction` interface of
`Dashboard.tsx` (fields `date`, `name`, `type`, `status`, `currency`,
`amount`). -/
structure RawTransaction where
  date : Int
  name : String
  type : String
  status : String
  currency : String
  amount : ℚ
deriving DecidableEq

/-- A transaction flowing through the filtered view: a `RawTransaction`
together with the `cumulativeAmount` field added by the `transactions`
memo of `Dashboard.tsx`. -/
structure Transaction where
  date : Int
  name : String
  type : String
  status : String
  currency : String
  amount : ℚ
  cumulativeAmount : ℚ
deriving DecidableEq

/-- The `.map(t => ({...t, date: parseDate(t.date), cumulativeAmount: 0}))`
step of the `transactions` memo: every raw transaction enters the filtered
view with `cumulativeAmount` initialised to `0`. -/
def toDated (t : RawTransaction) : Transaction :=
  { date := t.date, name := t.name, type := t.type, status := t.status,
    currency := t.currency, amount := t.amount, cumulativeAmount := 0 }

/-- Executable check that `pat` is a prefix of `s` (character lists). -/
def startsWithChars : List Char → List Char → Bool
  | [], _ => true
  | _ :: _, [] => false
  | p :: ps, c :: cs => p == c && startsWithChars ps cs

/-- Executable substring search over character lists, the model of the
JavaScript `String.includes` method (case-sensitive exact containment). -/
def hasSubstr (pat : List Char) : List Char → Bool
  | [] => pat.isEmpty
  | c :: rest => startsWithChars pat (c :: rest) || hasSubstr pat rest

/-- `s.includes(pat)` of JavaScript, on Lean strings. -/
def strContains (s pat : String) : Bool :=
  hasSubstr pat.data s.data

/-- The `isCompleted` predicate of the `transactions` memo in `Dashboard.tsx`:
status is `"Completed"`, the amount is non-zero, the name is non-empty, and
the type contains none of the three excluded phrases nor
`"Currency Conversion"`. -/
def isCompleted (t : Transaction) : Bool :=
  t.status == "Completed" &&
  t.amount != 0 &&
  !(strContains t.type "Currency Conversion") &&
  t.name != "" &&
  !(strContains t.type "General Authorization") &&
  !(strContains t.type "General Card Deposit") &&
  !(strContains t.type "Bank Deposit to PP Account")

theorem startsWithChars_iff (pat s : List Char) :
    startsWithChars pat s = true ↔ pat <+: s := by
  induction pat generalizing s with
  | nil => simp [startsWithChars]
  | cons p ps ih =>
    cases s with
    | nil => simp [startsWithChars]
    | cons c cs =>
      simp [startsWithChars, ih, List.cons_prefix_cons]

theorem hasSubstr_iff (pat s : List Char) :
    hasSubstr pat s = true ↔ pat <:+: s := by
  induction s with
  | nil => simp [hasSubstr, List.isEmpty_iff]
  | cons c cs ih =>
    simp [hasSubstr, startsWithChars_iff, ih, List.infix_cons_iff]

/-- The `matchesMerchant` test of the `transactions` memo:
`selectedMerchants.includes('all') || selectedMerchants.includes(transaction.name)`. -/
def matchesMerchant (selectedMerchants : List String) (t : Transaction) : Bool :=
  selectedMerchants.contains "all" || selectedMerchants.contains t.name

/-- Milliseconds per day, the scale of the timestamp model. -/
def msPerDay : Int := 86400000

/-- First instant of day `d` — the timestamp produced by
`new Date(startDate)` followed by `setHours(0, 0, 0, 0)`. -/
def dayFirstInstant (d : Int) : Int := d * msPerDay

/-- Last instant of day `d` — the timestamp produced by
`new Date(endDate)` followed by `setHours(23, 59, 59, 999)`. -/
def dayLastInstant (d : Int) : Int := d * msPerDay + 86399999

/-- The `matchesDate` test of the `transactions` memo: starts at `true`, and
each bound present in the state conjoins its comparison.  A start day keeps
transactions at or after its first instant; an end day keeps transactions at
or before its last instant.  An unset bound (empty string in the state) adds
no constraint. -/
def matchesDate (startDate endDate : Option Int) (t : Transaction) : Bool :=
  (match startDate with
   | none => true
   | some s => decide (dayFirstInstant s ≤ t.date)) &&
  (match endDate with
   | none => true
   | some e => decide (t.date ≤ dayLastInstant e))

/-- The single-pass filter of the `transactions` memo:
`isCompleted && matchesMerchant && matchesDate` over the dated raw list. -/
def filteredView (raw : List RawTransaction) (sel : List String)
    (sd ed : Option Int) : List Transaction :=
  (raw.map toDated).filter
    (fun t => isCompleted t && matchesMerchant sel t && matchesDate sd ed t)

/-- Insertion of one element into a list kept sorted by `date`, placing the
new element before the first element whose date is not smaller.  Since the
new element comes earlier in traversal order than every element of the
accumulator's tail, this realises the stable sort guaranteed by
`Array.prototype.sort` with the comparator `(a, b) => a.date - b.date`. -/
def insertByDate (x : Transaction) : List Transaction → List Transaction
  | [] => [x]
  | h :: t =>
    if x.date ≤ h.date then x :: h :: t else h :: insertByDate x t

/-- Stable sort by ascending resolved date, the model of
`.sort((a, b) => a.date.getTime() - b.date.getTime())`. -/
def sortByDate : List Transaction → List Transaction
  | [] => []
  | x :: xs => insertByDate x (sortByDate xs)

/-- The final `.map` of the `transactions` memo: walk the sorted sequence
once with a running sum, setting each element's `cumulativeAmount` to the
running sum after adding the element's own `amount`. -/
def addCumulative (acc : ℚ) : List Transaction → List Transaction
  | [] => []
  | t :: ts =>
    { t with cumulativeAmount := acc + t.amount } ::
      addCumulative (acc + t.amount) ts

/-- The full `transactions` memo of `Dashboard.tsx`: date-resolve, filter,
stable-sort by date, then compute running cumulative amounts. -/
def transactionsView (raw : List RawTransaction) (sel : List String)
    (sd ed : Option Int) : List Transaction :=
  addCumulative 0 (sortByDate (filteredView raw sel sd ed))

/-- First-occurrence deduplication, the model of
`Array.from(new Set(xs))` (a JavaScript `Set` iterates in insertion order
and keeps the first occurrence of each value). -/
def dedup : List String → List String
  | [] => []
  | x :: xs => x :: (dedup xs).filter (fun y => y != x)

/-- The `merchants` memo of `Dashboard.tsx`:
`Array.from(new Set(rawTransactions.map(t => t.name))).filter(n => n && n !== '')`.
It is computed from the raw transactions, before the inclusion filter. -/
def merchants (raw : List RawTransaction) : List String :=
  (dedup (raw.map (fun t => t.name))).filter (fun n => n != "")

/-- `totalIncoming`: sum of the strictly positive amounts of the filtered
view. -/
def totalIncoming (l : List Transaction) : ℚ :=
  ((l.filter (fun t => decide (0 < t.amount))).map (fun t => t.amount)).sum

/-- `totalOutgoing`: absolute value of the sum of the strictly negative
amounts of the filtered view. -/
def totalOutgoing (l : List Transaction) : ℚ :=
  |((l.filter (fun t => decide (t.amount < 0))).map (fun t => t.amount)).sum|

/-- `netAmount`: the `cumulativeAmount` of the last element of the view, or
`0` when the view is empty. -/
def netAmount (l : List Transaction) : ℚ :=
  match l.getLast? with
  | some t => t.cumulativeAmount
  | none => 0

/-- The mutable state of the Dashboard component that the upload handler can
touch: the raw working set, the merchant selection, the uploaded file names
and the two date-filter bounds (an unset date input is `none`). -/
structure DashState where
  rawTransactions : List RawTransaction
  selectedMerchants : List String
  uploadedFiles : List String
  startDate : Option Int
  endDate : Option Int
deriving DecidableEq

/-- One file of an upload batch: its name and the outcome of `processCSVFile`
for it (`Papa.parse` either resolves with the parsed rows or rejects with an
error). -/
structure UploadFile where
  fname : String
  parseResult : Except String (List RawTransaction)

/-- The rows a file contributes when its parse succeeded. -/
def parsedRows (f : UploadFile) : List RawTransaction :=
  match f.parseResult with
  | .ok l => l
  | .error _ => []

/-- Whether a file's parse failed. -/
def parseFailed (f : UploadFile) : Bool :=
  match f.parseResult with
  | .ok _ => false
  | .error _ => true

/-- The `handleFileUpload` handler of `Dashboard.tsx`.  An empty selection
returns immediately.  `Promise.all` rejects when any file's parse rejects, in
which case the `catch` block performs no state update.  On success the
combined rows replace the working set, the file names replace the uploaded
list, and the merchant selection is reset to `['all']`. -/
def handleFileUpload (s : DashState) (files : List UploadFile) : DashState :=
  if files.isEmpty then s
  else if files.any parseFailed then s
  else
    { s with
      rawTransactions := (files.map parsedRows).flatten,
      uploadedFiles := files.map (fun f => f.fname),
      selectedMerchants := ["all"] }

/-- The `isAllSelected` flag of `MultiSelect.tsx`:
`selected.includes('all') || (options.length > 0 && selected.length === options.length)`. -/
def isAllSelected (options selected : List String) : Bool :=
  selected.contains "all" ||
    (decide (0 < options.length) && decide (selected.length = options.length))

/-- The `handleSelectAll` handler of `MultiSelect.tsx`: emits `[]` when
everything is already selected, otherwise emits `['all']`. -/
def handleSelectAll (options selected : List String) : List String :=
  if isAllSelected options selected then [] else ["all"]

/-- The `handleOptionClick` handler of `MultiSelect.tsx`: expand the `'all'`
sentinel to the full options list, toggle the clicked option, and collapse
back to `['all']` when every individual option ends up selected. -/
def handleOptionClick (options selected : List String) (opt : String) :
    List String :=
  let current := if selected.contains "all" then options else selected
  let newSelected :=
    if current.contains opt then current.filter (fun s => s != opt)
    else current ++ [opt]
  if newSelected.length = options.length then ["all"] else newSelected

/-- The selections the MultiSelect component can emit, starting from the
initial `['all']` state of the Dashboard, when every clicked option is drawn
from the options list (the rendered checkboxes come from a filter of
`options`). -/
inductive Reachable (options : List String) : List String → Prop
  | init : Reachable options ["all"]
  | selectAll {sel : List String} :
      Reachable options sel → Reachable options (handleSelectAll options sel)
  | optionClick {sel : List String} {opt : String} :
      Reachable options sel → opt ∈ options →
      Reachable options (handleOptionClick options sel opt)

/-- A JavaScript `number` as produced by `parseFloat`: either `NaN`, a signed
`Infinity`, or a finite value (modelled exactly as a rational). -/
inductive JsNumber where
  | nan : JsNumber
  | inf : Bool → JsNumber
  | val : ℚ → JsNumber
deriving DecidableEq

/-- The whitespace class `\s` of JavaScript regular expressions. -/
def isJsWs (c : Char) : Bool :=
  c == ' ' || c == '\t' || c == '\n' || c == '\r' || c == '\x0b' ||
  c == '\x0c' || c == '\u00A0' || c == '\u1680' ||
  ('\u2000' ≤ c && c ≤ '\u200A') || c == '\u2028' || c == '\u2029' ||
  c == '\u202F' || c == '\u205F' || c == '\u3000' || c == '\uFEFF'

/-- Value of a list of decimal digit characters. -/
def digitsToNat (ds : List Char) : Nat :=
  ds.foldl (fun a c => 10 * a + (c.toNat - 48)) 0

/-- Parse the exponent that may follow `e`/`E`: an optional sign and at least
one digit.  Returns the exponent and the unconsumed characters, or `none`
when no digit follows (in which case `parseFloat` does not consume the
exponent marker). -/
def parseExp (cs : List Char) : Option (Int × List Char) :=
  match cs with
  | '+' :: rest =>
    let ds := rest.takeWhile Char.isDigit
    if ds.isEmpty then none
    else some ((digitsToNat ds : Int), rest.dropWhile Char.isDigit)
  | '-' :: rest =>
    let ds := rest.takeWhile Char.isDigit
    if ds.isEmpty then none
    else some (-(digitsToNat ds : Int), rest.dropWhile Char.isDigit)
  | _ =>
    let ds := cs.takeWhile Char.isDigit
    if ds.isEmpty then none
    else some ((digitsToNat ds : Int), cs.dropWhile Char.isDigit)

/-- Parse an unsigned decimal literal prefix (`digits`, `digits.`,
`digits.digits` or `.digits`, with an optional valid exponent part), the
`StrUnsignedDecimalLiteral` consumed by `parseFloat`.  Returns `none` when
the characters do not start with any digit of either part. -/
def parseUnsigned (cs : List Char) : Option ℚ :=
  let ip := cs.takeWhile Char.isDigit
  let r1 := cs.dropWhile Char.isDigit
  let fp := match r1 with
    | '.' :: rest => rest.takeWhile Char.isDigit
    | _ => []
  let r2 := match r1 with
    | '.' :: rest => rest.dropWhile Char.isDigit
    | _ => r1
  if ip.isEmpty && fp.isEmpty then none
  else
    let mantissa : ℚ :=
      (digitsToNat ip : ℚ) + (digitsToNat fp : ℚ) / ((10 : ℚ) ^ fp.length)
    match r2 with
    | 'e' :: rest =>
      match parseExp rest with
      | some (ex, _) => some (mantissa * (10 : ℚ) ^ ex)
      | none => some mantissa
    | 'E' :: rest =>
      match parseExp rest with
      | some (ex, _) => some (mantissa * (10 : ℚ) ^ ex)
      | none => some mantissa
    | _ => some mantissa

/-- The JavaScript `parseFloat` function on the characters of its argument:
skip leading whitespace, read an optional sign, recognise `Infinity`, else
read the longest decimal-literal prefix; `NaN` when nothing numeric is
found.  Trailing unconsumed characters are ignored. -/
def jsParseFloat (s : List Char) : JsNumber :=
  let cs := s.dropWhile isJsWs
  match cs with
  | '-' :: rest =>
    if startsWithChars "Infinity".data rest then JsNumber.inf true
    else
      match parseUnsigned rest with
      | some q => JsNumber.val (-q)
      | none => JsNumber.nan
  | '+' :: rest =>
    if startsWithChars "Infinity".data rest then JsNumber.inf false
    else
      match parseUnsigned rest with
      | some q => JsNumber.val q
      | none => JsNumber.nan
  | _ =>
    if startsWithChars "Infinity".data cs then JsNumber.inf false
    else
      match parseUnsigned cs with
      | some q => JsNumber.val q
      | none => JsNumber.nan

/-- The `parseAmount` helper of `Dashboard.tsx`: the empty string (falsy)
yields `0`; otherwise commas and whitespace are removed
(`replace(/[,\s]/g, '')`) and the result is handed to `parseFloat`. -/
def parseAmount (s : String) : JsNumber :=
  if s.isEmpty then JsNumber.val 0
  else jsParseFloat (s.data.filter (fun c => !(c == ',' || isJsWs c)))

theorem dedup_nodup (l : List String) : (dedup l).Nodup := by
  induction l with
  | nil => simp [dedup]
  | cons x xs ih =>
    simp only [dedup, List.nodup_cons]
    refine ⟨fun hx => ?_, ih.filter _⟩
    have := (List.mem_filter.mp hx).2
    simp at this

theorem mem_dedup (l : List String) (y : String) : y ∈ dedup l ↔ y ∈ l := by
  induction l with
  | nil => simp [dedup]
  | cons x xs ih =>
    simp only [dedup, List.mem_cons, List.mem_filter, ih, bne_iff_ne, ne_eq]
    by_cases hyx : y = x <;> simp [hyx]

/-- Claim C2: the Inclusion Filter accepts a transaction exactly when the
status is literally `"Completed"`, the amount is non-zero, the name is
non-empty, and the type string contains none of the four excluded phrases,
each containment being case-sensitive exact-substring containment. -/
theorem claim_C2_inclusion_filter (t : Transaction) :
    isCompleted t = true ↔
      (t.status = "Completed" ∧ t.amount ≠ 0 ∧
       ¬ ("Currency Conversion".data <:+: t.type.data) ∧
       t.name ≠ "" ∧
       ¬ ("General Authorization".data <:+: t.type.data) ∧
       ¬ ("General Card Deposit".data <:+: t.type.data) ∧
       ¬ ("Bank Deposit to PP Account".data <:+: t.type.data)) := by
  simp only [isCompleted, strContains, Bool.and_eq_true, beq_iff_eq,
    bne_iff_ne, ne_eq, Bool.not_eq_true', ← Bool.not_eq_true, hasSubstr_iff]
  tauto

theorem claim_C2_witness :
    (⟨0, "Alice", "Payment", "Completed", "CAD", 100, 0⟩ : Transaction).status
      = "Completed" :=
  ((claim_C2_inclusion_filter
      ⟨0, "Alice", "Payment", "Completed", "CAD", 100, 0⟩).mp (by decide)).1

/-- Claim C6: the merchant universe is exactly the set of distinct non-empty
names over all raw transactions, computed before the Inclusion Filter: it is
duplicate-free, contains no empty name, and contains a name exactly when
some uploaded row (completed or not) carries it. -/
theorem claim_C6_merchant_universe (raw : List RawTransaction) :
    (merchants raw).Nodup ∧
      ∀ n : String,
        (n ∈ merchants raw ↔ (n ≠ "" ∧ n ∈ raw.map (fun t => t.name))) := by
  constructor
  · exact (dedup_nodup _).filter _
  · intro n
    simp [merchants, List.mem_filter, mem_dedup, and_comm]

theorem claim_C6_witness :
    "Alice" ∈ merchants [⟨0, "Alice", "", "Pending", "CAD", 0⟩] ↔
      ("Alice" ≠ "" ∧
        "Alice" ∈ ([⟨0, "Alice", "", "Pending", "CAD", 0⟩] :
          List RawTransaction).map (fun t => t.name)) :=
  (claim_C6_merchant_universe [⟨0, "Alice", "", "Pending", "CAD", 0⟩]).2 "Alice"

/-- Claim C7: the date-range filter passes a transaction exactly when it is
not strictly before the first instant of a set start day and not strictly
after the last instant of a set end day; an absent bound imposes no
constraint, so with both bounds absent everything passes. -/
theorem claim_C7_date_range (sd ed : Option Int) (t : Transaction) :
    (matchesDate sd ed t = true ↔
      ((∀ d : Int, sd = some d → ¬ (t.date < dayFirstInstant d)) ∧
       (∀ d : Int, ed = some d → ¬ (dayLastInstant d < t.date)))) ∧
    matchesDate none none t = true := by
  refine ⟨?_, rfl⟩
  cases sd <;> cases ed <;>
    simp [matchesDate, not_lt]

theorem claim_C7_witness :
    ¬ ((⟨86400005, "A", "P", "Completed", "CAD", 5, 0⟩ : Transaction).date
        < dayFirstInstant 1) :=
  (((claim_C7_date_range (some 1) none
      ⟨86400005, "A", "P", "Completed", "CAD", 5, 0⟩).1.mp (by decide)).1) 1 rfl

theorem contains_iff (l : List String) (a : String) :
    l.contains a = true ↔ a ∈ l :=
  List.elem_iff

theorem mem_insertByDate {y x : Transaction} {l : List Transaction} :
    y ∈ insertByDate x l ↔ y = x ∨ y ∈ l := by
  induction l with
  | nil => simp [insertByDate]
  | cons h t ih =>
    by_cases hc : x.date ≤ h.date
    · simp [insertByDate, hc]
    · simp [insertByDate, hc, ih]
      tauto

theorem pairwise_insertByDate {x : Transaction} {l : List Transaction}
    (hl : l.Pairwise (fun a b => a.date ≤ b.date)) :
    (insertByDate x l).Pairwise (fun a b => a.date ≤ b.date) := by
  induction l with
  | nil => simp [insertByDate]
  | cons h t ih =>
    rcases List.pairwise_cons.mp hl with ⟨hh, ht⟩
    by_cases hc : x.date ≤ h.date
    · rw [insertByDate, if_pos hc]
      refine List.pairwise_cons.mpr ⟨?_, hl⟩
      intro b hb
      rcases List.mem_cons.mp hb with rfl | hb
      · exact hc
      · exact le_trans hc (hh b hb)
    · rw [insertByDate, if_neg hc]
      refine List.pairwise_cons.mpr ⟨?_, ih ht⟩
      intro b hb
      rcases mem_insertByDate.mp hb with rfl | hb
      · exact le_of_lt (lt_of_not_le hc)
      · exact hh b hb

theorem sortByDate_pairwise (l : List Transaction) :
    (sortByDate l).Pairwise (fun a b => a.date ≤ b.date) := by
  induction l with
  | nil => simp [sortByDate]
  | cons x xs ih => exact pairwise_insertByDate ih

theorem filter_insertByDate (x : Transaction) (l : List Transaction) (d : Int) :
    (insertByDate x l).filter (fun t => t.date == d) =
      if x.date = d then x :: l.filter (fun t => t.date == d)
      else l.filter (fun t => t.date == d) := by
  induction l with
  | nil =>
    by_cases hx : x.date = d <;> simp [insertByDate, List.filter_cons, hx]
  | cons h t ih =>
    by_cases hc : x.date ≤ h.date
    · rw [insertByDate, if_pos hc]
      by_cases hx : x.date = d <;> simp [List.filter_cons, hx]
    · rw [insertByDate, if_neg hc]
      have hlt : h.date < x.date := lt_of_not_le hc
      by_cases hx : x.date = d
      · have hh : ¬ (h.date = d) := by omega
        simp [List.filter_cons, ih, hx, hh]
      · simp [List.filter_cons, ih, hx]

theorem sortByDate_stable (l : List Transaction) (d : Int) :
    (sortByDate l).filter (fun t => t.date == d) =
      l.filter (fun t => t.date == d) := by
  induction l with
  | nil => rfl
  | cons x xs ih =>
    by_cases hx : x.date = d <;>
      simp [sortByDate, filter_insertByDate, hx, ih, List.filter_cons]

theorem addCumulative_map_amount (a : ℚ) (l : List Transaction) :
    (addCumulative a l).map (fun t => t.amount) =
      l.map (fun t => t.amount) := by
  induction l generalizing a with
  | nil => rfl
  | cons t ts ih => simp [addCumulative, ih]

theorem addCumulative_map_date (a : ℚ) (l : List Transaction) :
    (addCumulative a l).map (fun t => t.date) = l.map (fun t => t.date) := by
  induction l generalizing a with
  | nil => rfl
  | cons t ts ih => simp [addCumulative, ih]

theorem addCumulative_length (a : ℚ) (l : List Transaction) :
    (addCumulative a l).length = l.length := by
  induction l generalizing a with
  | nil => rfl
  | cons t ts ih => simp [addCumulative, ih]

theorem addCumulative_get (l : List Transaction) :
    ∀ (a : ℚ) (i : Nat) (h : i < (addCumulative a l).length),
      ((addCumulative a l).get ⟨i, h⟩).cumulativeAmount
        = a + ((l.take (i + 1)).map (fun t => t.amount)).sum := by
  induction l with
  | nil =>
    intro a i h
    simp [addCumulative] at h
  | cons t ts ih =>
    intro a i h
    cases i with
    | zero => simp [addCumulative, List.take_succ_cons]
    | succ n =>
      have h' : n < (addCumulative (a + t.amount) ts).length := by
        have := h
        simp only [addCumulative, List.length_cons] at this
        omega
      calc ((addCumulative a (t :: ts)).get ⟨n + 1, h⟩).cumulativeAmount
          = ((addCumulative (a + t.amount) ts).get ⟨n, h'⟩).cumulativeAmount :=
            rfl
        _ = (a + t.amount) + ((ts.take (n + 1)).map (fun t => t.amount)).sum :=
            ih _ n h'
        _ = a + (((t :: ts).take (n + 2)).map (fun t => t.amount)).sum := by
            simp [List.take_succ_cons, add_assoc]

theorem netAmount_cons_cons (x y : Transaction) (l : List Transaction) :
    netAmount (x :: y :: l) = netAmount (y :: l) := by
  simp [netAmount, List.getLast?_cons_cons]

theorem netAmount_addCumulative_cons (ts : List Transaction) :
    ∀ (a : ℚ) (t : Transaction),
      netAmount (addCumulative a (t :: ts))
        = a + (((t :: ts)).map (fun u => u.amount)).sum := by
  induction ts with
  | nil =>
    intro a t
    simp [addCumulative, netAmount, List.getLast?]
  | cons u us ih =>
    intro a t
    have e1 : addCumulative a (t :: u :: us)
        = { t with cumulativeAmount := a + t.amount } ::
          addCumulative (a + t.amount) (u :: us) := rfl
    have e2 : addCumulative (a + t.amount) (u :: us)
        = { u with cumulativeAmount := a + t.amount + u.amount } ::
          addCumulative (a + t.amount + u.amount) us := rfl
    rw [e1, e2, netAmount_cons_cons, ← e2, ih (a + t.amount) u]
    simp [add_assoc]

theorem netAmount_addCumulative (l : List Transaction) :
    netAmount (addCumulative 0 l) = (l.map (fun t => t.amount)).sum := by
  cases l with
  | nil => rfl
  | cons t ts => rw [netAmount_addCumulative_cons ts 0 t, zero_add]

/-- Claim C1: for every raw working set and filter setting, the output of the
`transactions` memo is sorted by ascending resolved date, the sort is stable
(for every date, the subsequence of that date equals the corresponding
subsequence of the filtered parse-order list), each position's
`cumulativeAmount` is the inclusive running sum of the amounts up to it, and
`netAmount` of the output equals the sum of all its amounts. -/
theorem claim_C1_aggregator (raw : List RawTransaction) (sel : List String)
    (sd ed : Option Int) :
    (transactionsView raw sel sd ed).Pairwise (fun a b => a.date ≤ b.date)
    ∧ (∀ d : Int,
        (sortByDate (filteredView raw sel sd ed)).filter
            (fun t => t.date == d)
          = (filteredView raw sel sd ed).filter (fun t => t.date == d))
    ∧ (∀ i : Fin (transactionsView raw sel sd ed).length,
        ((transactionsView raw sel sd ed).get i).cumulativeAmount
          = (((transactionsView raw sel sd ed).take (i.val + 1)).map
              (fun t => t.amount)).sum)
    ∧ netAmount (transactionsView raw sel sd ed)
        = ((transactionsView raw sel sd ed).map (fun t => t.amount)).sum := by
  refine ⟨?_, fun d => sortByDate_stable _ d, ?_, ?_⟩
  · have hp := sortByDate_pairwise (filteredView raw sel sd ed)
    have h1 : ((sortByDate (filteredView raw sel sd ed)).map
        (fun t => t.date)).Pairwise (fun a b : Int => a ≤ b) :=
      List.pairwise_map.mpr hp
    rw [← addCumulative_map_date 0] at h1
    exact List.pairwise_map.mp h1
  · intro i
    have hbase := addCumulative_get (sortByDate (filteredView raw sel sd ed))
      0 i.val i.isLt
    have e : ((addCumulative 0 (sortByDate (filteredView raw sel sd ed))).take
          (i.val + 1)).map (fun t => t.amount)
        = ((sortByDate (filteredView raw sel sd ed)).take (i.val + 1)).map
            (fun t => t.amount) := by
      rw [List.map_take, List.map_take, addCumulative_map_amount]
    show ((addCumulative 0 (sortByDate (filteredView raw sel sd ed))).get
        ⟨i.val, i.isLt⟩).cumulativeAmount
      = (((addCumulative 0 (sortByDate (filteredView raw sel sd ed))).take
          (i.val + 1)).map (fun t => t.amount)).sum
    rw [hbase, zero_add, e]
  · show netAmount (addCumulative 0 (sortByDate (filteredView raw sel sd ed)))
      = ((addCumulative 0 (sortByDate (filteredView raw sel sd ed))).map
          (fun t => t.amount)).sum
    rw [netAmount_addCumulative, addCumulative_map_amount]

theorem claim_C1_witness :
    netAmount (transactionsView
        [⟨200, "Alice", "Payment", "Completed", "CAD", 200⟩,
         ⟨100, "Alice", "Payment", "Completed", "CAD", -50⟩]
        ["all"] none none)
      = ((transactionsView
        [⟨200, "Alice", "Payment", "Completed", "CAD", 200⟩,
         ⟨100, "Alice", "Payment", "Completed", "CAD", -50⟩]
        ["all"] none none).map (fun t => t.amount)).sum ∧
    netAmount (transactionsView
        [⟨200, "Alice", "Payment", "Completed", "CAD", 200⟩,
         ⟨100, "Alice", "Payment", "Completed", "CAD", -50⟩]
        ["all"] none none) = 150 :=
  ⟨(claim_C1_aggregator _ _ _ _).2.2.2, by
    have h : netAmount (transactionsView
        [⟨200, "Alice", "Payment", "Completed", "CAD", 200⟩,
         ⟨100, "Alice", "Payment", "Completed", "CAD", -50⟩]
        ["all"] none none) = (0 : ℚ) + (-50) + 200 := rfl
    rw [h]; norm_num⟩

theorem filter_pos_add_filter_neg_sum (xs : List ℚ) :
    (xs.filter (fun q => decide (0 < q))).sum
      + (xs.filter (fun q => decide (q < 0))).sum = xs.sum := by
  induction xs with
  | nil => simp
  | cons x l ih =>
    rcases lt_trichotomy 0 x with h | h | h
    · have h1 : ¬ (x < 0) := by linarith
      simp only [List.filter_cons, decide_eq_true_eq, List.sum_cons]
      rw [if_pos h, if_neg h1, List.sum_cons]
      linarith [ih]
    · have h1 : ¬ (0 < x) := by linarith
      have h2 : ¬ (x < 0) := by linarith
      simp only [List.filter_cons, decide_eq_true_eq, List.sum_cons]
      rw [if_neg h1, if_neg h2]
      linarith [ih]
    · have h1 : ¬ (0 < x) := by linarith
      simp only [List.filter_cons, decide_eq_true_eq, List.sum_cons]
      rw [if_neg h1, if_pos h, List.sum_cons]
      linarith [ih]

theorem filter_neg_sum_nonpos (xs : List ℚ) :
    (xs.filter (fun q => decide (q < 0))).sum ≤ 0 := by
  induction xs with
  | nil => simp
  | cons x l ih =>
    by_cases h : x < 0
    · simp only [List.filter_cons, decide_eq_true_eq]
      rw [if_pos h, List.sum_cons]
      linarith
    · simp only [List.filter_cons, decide_eq_true_eq]
      rw [if_neg h]
      exact ih

theorem totalIncoming_eq_map (l : List Transaction) :
    totalIncoming l
      = ((l.map (fun t => t.amount)).filter (fun q => decide (0 < q))).sum := by
  rw [totalIncoming, List.filter_map]
  rfl

theorem totalOutgoing_eq_map (l : List Transaction) :
    totalOutgoing l
      = |((l.map (fun t => t.amount)).filter (fun q => decide (q < 0))).sum| := by
  rw [totalOutgoing, List.filter_map]
  rfl

/-- Claim C8: for every filtered view, the sum of the strictly positive
amounts minus the absolute value of the sum of the strictly negative amounts
equals `netAmount` (the last cumulative amount, or `0` for an empty view);
the identity is exact over the exact-rational model of the amounts. -/
theorem claim_C8_decomposition (raw : List RawTransaction) (sel : List String)
    (sd ed : Option Int) :
    totalIncoming (transactionsView raw sel sd ed)
        - totalOutgoing (transactionsView raw sel sd ed)
      = netAmount (transactionsView raw sel sd ed) := by
  rw [totalIncoming_eq_map, totalOutgoing_eq_map,
    abs_of_nonpos (filter_neg_sum_nonpos _)]
  have hnet : netAmount (transactionsView raw sel sd ed)
      = ((transactionsView raw sel sd ed).map (fun t => t.amount)).sum := by
    show netAmount (addCumulative 0 (sortByDate (filteredView raw sel sd ed)))
      = ((addCumulative 0 (sortByDate (filteredView raw sel sd ed))).map
          (fun t => t.amount)).sum
    rw [netAmount_addCumulative, addCumulative_map_amount]
  rw [hnet]
  have := filter_pos_add_filter_neg_sum
    ((transactionsView raw sel sd ed).map (fun t => t.amount))
  linarith

theorem claim_C8_witness :
    totalIncoming (transactionsView
        [⟨200, "Bob", "Payment", "Completed", "CAD", 200⟩,
         ⟨100, "Bob", "Payment", "Completed", "CAD", -50⟩]
        ["all"] none none)
      - totalOutgoing (transactionsView
        [⟨200, "Bob", "Payment", "Completed", "CAD", 200⟩,
         ⟨100, "Bob", "Payment", "Completed", "CAD", -50⟩]
        ["all"] none none)
      = netAmount (transactionsView
        [⟨200, "Bob", "Payment", "Completed", "CAD", 200⟩,
         ⟨100, "Bob", "Payment", "Completed", "CAD", -50⟩]
        ["all"] none none) :=
  claim_C8_decomposition _ _ _ _

theorem handleFileUpload_ok (s : DashState) (files : List UploadFile)
    (hne : files ≠ [])
    (hok : ∀ f ∈ files, ∃ l, f.parseResult = Except.ok l) :
    handleFileUpload s files =
      { s with
        rawTransactions := (files.map parsedRows).flatten,
        uploadedFiles := files.map (fun f => f.fname),
        selectedMerchants := ["all"] } := by
  have hempty : files.isEmpty = false := by
    simp [List.isEmpty_iff, hne]
  have hfail : files.any parseFailed = false := by
    rw [List.any_eq_false]
    intro f hf
    rcases hok f hf with ⟨l, hl⟩
    simp [parseFailed, hl]
  simp [handleFileUpload, hempty, hfail]

/-- Claim C4: an upload batch is all-or-nothing.  When any file of the batch
fails to parse, the handler leaves the whole state (working set and filter
parameters) unchanged; when every file parses, the committed working set is
the concatenation of the files' parsed rows in file-selection order. -/
theorem claim_C4_atomic_upload (s : DashState) (files : List UploadFile) :
    ((∃ f ∈ files, ∃ e, f.parseResult = Except.error e) →
      handleFileUpload s files = s)
    ∧ (files ≠ [] → (∀ f ∈ files, ∃ l, f.parseResult = Except.ok l) →
        (handleFileUpload s files).rawTransactions
          = (files.map parsedRows).flatten) := by
  constructor
  · rintro ⟨f, hf, e, he⟩
    have hfail : files.any parseFailed = true :=
      List.any_eq_true.mpr ⟨f, hf, by simp [parseFailed, he]⟩
    by_cases hempty : files.isEmpty = true
    · simp [handleFileUpload, hempty]
    · simp [handleFileUpload, hempty, hfail]
  · intro hne hok
    rw [handleFileUpload_ok s files hne hok]

theorem claim_C4_witness :
    handleFileUpload
        ⟨[⟨0, "Old", "Payment", "Completed", "CAD", 1⟩], ["Old"], ["old.csv"],
          none, none⟩
        [⟨"bad.csv", Except.error "parse error"⟩]
      = ⟨[⟨0, "Old", "Payment", "Completed", "CAD", 1⟩], ["Old"], ["old.csv"],
          none, none⟩
    ∧ (handleFileUpload
        ⟨[], ["all"], [], none, none⟩
        [⟨"a.csv", Except.ok [⟨5, "A", "Payment", "Completed", "CAD", 2⟩]⟩,
         ⟨"b.csv", Except.ok [⟨3, "B", "Payment", "Completed", "CAD", 4⟩]⟩]).rawTransactions
      = (([⟨"a.csv", Except.ok [⟨5, "A", "Payment", "Completed", "CAD", 2⟩]⟩,
           ⟨"b.csv", Except.ok [⟨3, "B", "Payment", "Completed", "CAD", 4⟩]⟩] :
          List UploadFile).map parsedRows).flatten :=
  ⟨(claim_C4_atomic_upload _ _).1
      ⟨⟨"bad.csv", Except.error "parse error"⟩, by simp, "parse error", rfl⟩,
    (claim_C4_atomic_upload _ _).2 (by simp)
      (by
        intro f hf
        rcases List.mem_cons.mp hf with rfl | hf2
        · exact ⟨_, rfl⟩
        · rcases List.mem_singleton.mp hf2 with rfl
          exact ⟨_, rfl⟩)⟩

/-- Claim C5 fails on the code: `handleFileUpload` resets the merchant
selection but performs no `setStartDate('')`/`setEndDate('')`; a successful
upload over a state with a set start date leaves that start date set. -/
theorem claim_C5_counterexample :
    (handleFileUpload
        ⟨[], ["all"], [], some 19000, some 19100⟩
        [⟨"a.csv", Except.ok [⟨0, "Alice", "Payment", "Completed", "CAD", 1⟩]⟩]).startDate
      = some 19000
    ∧ some (19000 : Int) ≠ none := by
  constructor
  · rfl
  · simp

/-- Claim C5 as amended: a successful upload batch replaces the whole raw
working set with the files' concatenated rows, resets the merchant filter to
the `"all"` sentinel, and leaves the start/end date filters unchanged
(they are not reset to empty). -/
theorem claim_C5_amended_reset (s : DashState) (files : List UploadFile)
    (hne : files ≠ [])
    (hok : ∀ f ∈ files, ∃ l, f.parseResult = Except.ok l) :
    (handleFileUpload s files).rawTransactions = (files.map parsedRows).flatten
    ∧ (handleFileUpload s files).selectedMerchants = ["all"]
    ∧ (handleFileUpload s files).startDate = s.startDate
    ∧ (handleFileUpload s files).endDate = s.endDate := by
  rw [handleFileUpload_ok s files hne hok]
  exact ⟨rfl, rfl, rfl, rfl⟩

theorem claim_C5_witness :
    (handleFileUpload
        ⟨[], ["all"], [], some 19000, none⟩
        [⟨"a.csv", Except.ok [⟨0, "Alice", "Payment", "Completed", "CAD", 1⟩]⟩]).selectedMerchants
      = ["all"]
    ∧ (handleFileUpload
        ⟨[], ["all"], [], some 19000, none⟩
        [⟨"a.csv", Except.ok [⟨0, "Alice", "Payment", "Completed", "CAD", 1⟩]⟩]).startDate
      = (⟨[], ["all"], [], some 19000, none⟩ : DashState).startDate :=
  ⟨(claim_C5_amended_reset _ _ (by simp)
      (by
        intro f hf
        rcases List.mem_singleton.mp hf with rfl
        exact ⟨_, rfl⟩)).2.1,
    (claim_C5_amended_reset _ _ (by simp)
      (by
        intro f hf
        rcases List.mem_singleton.mp hf with rfl
        exact ⟨_, rfl⟩)).2.2.1⟩

theorem isCompleted_name_ne (t : Transaction) (h : isCompleted t = true) :
    t.name ≠ "" := by
  intro hn
  rw [isCompleted] at h
  simp [hn] at h

theorem mem_merchants (raw : List RawTransaction) (n : String) :
    n ∈ merchants raw ↔ (n ≠ "" ∧ n ∈ raw.map (fun t => t.name)) := by
  simp [merchants, List.mem_filter, mem_dedup, and_comm]

theorem contains_eq_false_of_not_mem {l : List String} {a : String}
    (h : a ∉ l) : l.contains a = false := by
  cases hc : l.contains a with
  | false => rfl
  | true => exact absurd ((contains_iff _ _).mp hc) h

/-- Claim C9: selecting the full merchant universe explicitly filters exactly
like the `"all"` sentinel, and clicking the last remaining unselected option
in the MultiSelect makes the emitted selection collapse to exactly
`["all"]`. -/
theorem claim_C9_all_collapse (raw : List RawTransaction) (sd ed : Option Int)
    (options selected : List String) (opt : String)
    (hSall : "all" ∉ selected) (hnot : opt ∉ selected)
    (hlen : selected.length + 1 = options.length) :
    transactionsView raw (merchants raw) sd ed
        = transactionsView raw ["all"] sd ed
    ∧ handleOptionClick options selected opt = ["all"] := by
  constructor
  · have hfv : filteredView raw (merchants raw) sd ed
        = filteredView raw ["all"] sd ed := by
      unfold filteredView
      apply List.filter_congr
      intro t ht
      by_cases hc : isCompleted t = true
      · have hn1 : t.name ≠ "" := isCompleted_name_ne t hc
        have hn2 : t.name ∈ raw.map (fun r => r.name) := by
          rcases List.mem_map.mp ht with ⟨r, hr, rfl⟩
          exact List.mem_map.mpr ⟨r, hr, rfl⟩
        have hm : t.name ∈ merchants raw :=
          (mem_merchants raw t.name).mpr ⟨hn1, hn2⟩
        have hmm1 : matchesMerchant (merchants raw) t = true := by
          simp [matchesMerchant, hm]
        have hmm2 : matchesMerchant ["all"] t = true := by
          simp [matchesMerchant]
        rw [hc, hmm1, hmm2]
      · have hcf : isCompleted t = false := by
          revert hc
          cases isCompleted t <;> simp
        simp [hcf]
    simp only [transactionsView, hfv]
  · simp [handleOptionClick, hSall, hnot, List.length_append, hlen]

theorem claim_C9_witness :
    handleOptionClick ["a", "b"] ["a"] "b" = ["all"] :=
  (claim_C9_all_collapse [] none none ["a", "b"] ["a"] "b"
    (by decide) (by decide) (by decide)).2

/-- Claim C10 fails on the code for an empty options list (which is
duplicate-free and lacks `"all"`): from the initial `["all"]` selection,
`handleSelectAll` emits `[]`, which is neither `["all"]` nor of length
strictly less than the number of options. -/
theorem claim_C10_counterexample :
    Reachable [] (handleSelectAll [] ["all"])
    ∧ handleSelectAll [] ["all"] = []
    ∧ ¬ (handleSelectAll [] ["all"] = ["all"]
        ∨ ((handleSelectAll [] ["all"]).Nodup
            ∧ (∀ x ∈ handleSelectAll [] ["all"], x ∈ ([] : List String))
            ∧ "all" ∉ handleSelectAll [] ["all"]
            ∧ (handleSelectAll [] ["all"]).length
                < ([] : List String).length)) :=
  ⟨Reachable.selectAll Reachable.init, rfl, by decide⟩

/-- Claim C10 as amended: for a nonempty duplicate-free options list not
containing `"all"`, every selection the MultiSelect emits, starting from
`["all"]` and clicking only rendered options, is either exactly `["all"]` or
a duplicate-free subset of the options, free of `"all"`, of length strictly
less than the number of options. -/
theorem claim_C10_amended_invariant (options : List String)
    (hnd : options.Nodup) (hall : "all" ∉ options) (hne : options ≠ []) :
    ∀ sel, Reachable options sel →
      sel = ["all"]
      ∨ (sel.Nodup ∧ (∀ x ∈ sel, x ∈ options) ∧ "all" ∉ sel
          ∧ sel.length < options.length) := by
  intro sel h
  induction h with
  | init => exact Or.inl rfl
  | @selectAll sel hprev ih =>
    rcases ih with rfl | ⟨hnd', hsub', hall', hlen'⟩
    · right
      have he : handleSelectAll options ["all"] = [] := by
        simp [handleSelectAll, isAllSelected]
      rw [he]
      exact ⟨List.nodup_nil, by simp, by simp, List.length_pos.mpr hne⟩
    · left
      have hno : sel.contains "all" = false :=
        contains_eq_false_of_not_mem hall'
      have hlne : ¬ (sel.length = options.length) := Nat.ne_of_lt hlen'
      simp [handleSelectAll, isAllSelected, hall', hlne]
  | @optionClick sel opt hprev hmem ih =>
    rcases ih with rfl | ⟨hnd', hsub', hall', hlen'⟩
    · right
      have hfil : options.filter (fun s => s != opt) = options.erase opt :=
        (hnd.erase_eq_filter opt).symm
      have hlenf : (options.filter (fun s => s != opt)).length
          = options.length - 1 := by
        rw [hfil]
        exact List.length_erase_of_mem hmem
      have hpos : 0 < options.length := List.length_pos.mpr hne
      have hcond : ¬ ((options.filter (fun s => s != opt)).length
          = options.length) := by omega
      have hres : handleOptionClick options ["all"] opt
          = options.filter (fun s => s != opt) := by
        simp [handleOptionClick, hmem, hcond]
      rw [hres]
      refine ⟨hnd.filter _, fun x hx => (List.mem_filter.mp hx).1, ?_, ?_⟩
      · intro hmemall
        exact hall (List.mem_filter.mp hmemall).1
      · omega
    · by_cases hmem2 : opt ∈ sel
      · right
        have hlef : (sel.filter (fun s => s != opt)).length ≤ sel.length :=
          List.length_filter_le _ _
        have hcond : ¬ ((sel.filter (fun s => s != opt)).length
            = options.length) := by omega
        have hres : handleOptionClick options sel opt
            = sel.filter (fun s => s != opt) := by
          simp [handleOptionClick, hall', hmem2, hcond]
        rw [hres]
        refine ⟨hnd'.filter _, fun x hx => hsub' x (List.mem_filter.mp hx).1,
          ?_, by omega⟩
        intro hmemall
        exact hall' (List.mem_filter.mp hmemall).1
      · rcases Nat.lt_or_ge (sel.length + 1) options.length with hlt | hge
        · right
          have hcond : ¬ (sel.length + 1 = options.length) := by omega
          have hres : handleOptionClick options sel opt = sel ++ [opt] := by
            simp [handleOptionClick, hall', hmem2, hcond]
          rw [hres]
          refine ⟨?_, ?_, ?_, ?_⟩
          · refine hnd'.append (List.nodup_singleton opt) ?_
            intro x hx1 hx2
            rcases List.mem_singleton.mp hx2 with rfl
            exact hmem2 hx1
          · intro x hx
            rcases List.mem_append.mp hx with hx | hx
            · exact hsub' x hx
            · rcases List.mem_singleton.mp hx with rfl
              exact hmem
          · intro hmemall
            rcases List.mem_append.mp hmemall with hx | hx
            · exact hall' hx
            · rcases List.mem_singleton.mp hx with rfl
              exact hall hmem
          · simpa using hlt
        · left
          have heq : sel.length + 1 = options.length := by omega
          simp [handleOptionClick, hall', hmem2, heq]

theorem claim_C10_witness :
    handleSelectAll ["a"] ["all"] = ["all"]
    ∨ ((handleSelectAll ["a"] ["all"]).Nodup
        ∧ (∀ x ∈ handleSelectAll ["a"] ["all"], x ∈ (["a"] : List String))
        ∧ "all" ∉ handleSelectAll ["a"] ["all"]
        ∧ (handleSelectAll ["a"] ["all"]).length
            < (["a"] : List String).length) :=
  claim_C10_amended_invariant ["a"] (by decide) (by decide) (by decide)
    (handleSelectAll ["a"] ["all"]) (Reachable.selectAll Reachable.init)

/-- Claim C3 fails on the code: `parseAmount` returns `parseFloat`'s result
unchanged for non-empty input, and `parseFloat` of a string with no numeric
prefix is `NaN`, not `0`; the input `"x"` is unparseable yet yields `NaN`. -/
theorem claim_C3_counterexample :
    parseAmount "x" = JsNumber.nan ∧ parseAmount "x" ≠ JsNumber.val 0 :=
  ⟨rfl, by decide⟩

/-- Claim C3 as amended: amount parsing strips commas and whitespace before
converting; the empty field yields `0`, the field `"1,234.56"` yields
`1234.56`, and an unparseable non-empty field yields `NaN` (not `0`). -/
theorem claim_C3_amended_parse (s : String) (hs : ¬ s.isEmpty = true) :
    parseAmount "" = JsNumber.val 0
    ∧ parseAmount "1,234.56" = JsNumber.val (30864 / 25)
    ∧ parseAmount "abc" = JsNumber.nan
    ∧ parseAmount s
        = jsParseFloat (s.data.filter (fun c => !(c == ',' || isJsWs c))) := by
  refine ⟨rfl, ?_, rfl, ?_⟩
  · have h : parseAmount "1,234.56"
        = JsNumber.val (((1234 : Nat) : ℚ)
            + ((56 : Nat) : ℚ) / (10 : ℚ) ^ (2 : Nat)) := rfl
    rw [h]
    simp only [JsNumber.val.injEq]
    norm_num
  · have hf : s.isEmpty = false := by
      revert hs
      cases s.isEmpty <;> simp
    simp [parseAmount, hf]

theorem claim_C3_witness :
    parseAmount " 1 , 2 "
      = jsParseFloat
          (" 1 , 2 ".data.filter (fun c => !(c == ',' || isJsWs c))) :=
  (claim_C3_amended_parse " 1 , 2 " (by decide)).2.2.2

end PaypalDash
